import Mathlib

/-!
Verification development for the gotify-wechat-plugin forwarding relay.

The Go source is shallowly embedded: pure fragments become Lean functions,
lock-protected stateful fragments become explicit state passing (the mutex
serialises the critical sections, so a sequential model of the serialised
order is faithful), network calls become explicit outcome parameters, and
time becomes an explicit integer clock measured in seconds.

Go strings are modelled as `List Char` where the code operates on runes or
on ASCII delimiters (route patterns, URLs), and as byte lists `List Nat`
where the code indexes raw bytes (`maskString` slices `s[:4]`/`s[len-4:]`
by byte). Go's `int64` values are modelled as `Int` with the 64-bit range
made explicit where it matters (`strconv.ParseInt` rejects values above
`2^63 - 1`).
-/

/- ### Message routing (stream.go: MessageRoute, NewMessageRouter, Match) -/

/-- `MessageRoute` from config.go: a path-like pattern such as
"messages/1", "hi/123" or "*". -/
structure MessageRoute where
  path : List Char
deriving Repr, DecidableEq

/-- `GotifyMessage` from stream.go (the Gotify API message model).
`extras` is a string-keyed mapping, modelled as an association list. -/
structure GotifyMessage where
  id : Int
  appid : Int
  title : List Char
  message : List Char
  priority : Int
  date : List Char
  extras : List (List Char × List Char)

/-- Whitespace predicate used by `strings.TrimSpace` (`unicode.IsSpace`),
restricted to the Latin-1 range that the code paths here can meet:
'\t', '\n', '\v', '\f', '\r', ' ', U+0085, U+00A0. -/
def goIsSpace (c : Char) : Bool :=
  c = ' ' || c = '\t' || c = '\n' || (c = Char.ofNat 11) || (c = Char.ofNat 12) ||
  c = '\r' || (c = Char.ofNat 133) || (c = Char.ofNat 160)

/-- `strings.TrimSpace`: drop leading and trailing whitespace. -/
def trimSpace (l : List Char) : List Char :=
  ((l.dropWhile goIsSpace).reverse.dropWhile goIsSpace).reverse

/-- ASCII decimal digit, the `\d` class of Go's regexp. -/
def isDigitChar (c : Char) : Bool :=
  '0' ≤ c && c ≤ '9'

/-- The submatch of the regex `(\d+)$`: the maximal run of ASCII digits at
the end of the string (possibly empty, in which case the regex does not
match). -/
def trailingDigits (l : List Char) : List Char :=
  (l.reverse.takeWhile isDigitChar).reverse

/-- Decimal value of a digit string. -/
def digitsVal (l : List Char) : Nat :=
  l.foldl (fun acc c => acc * 10 + (c.toNat - '0'.toNat)) 0

/-- Largest `int64` value, the bound enforced by
`strconv.ParseInt(s, 10, 64)`. -/
def int64Max : Int := 9223372036854775807

/-- `strconv.ParseInt(digits, 10, 64)` on a (possibly empty) digit string:
fails on the empty string and on values exceeding the `int64` range. -/
def parseAppID (digits : List Char) : Option Int :=
  if digits = [] then none
  else if (digitsVal digits : Int) ≤ int64Max then some (digitsVal digits)
  else none

/-- `MessageRouter` from stream.go. The Go `map[int64]bool` is modelled as
a membership list (`appIDs.contains` plays the role of the map lookup,
which yields `false` for absent keys). -/
structure MessageRouter where
  appIDs : List Int
  allowAll : Bool

/-- One step of the rule-processing loop body of `NewMessageRouter`:
extract the trailing digits of the trimmed path and record the parsed id. -/
def addRouteID (r : MessageRouter) (route : MessageRoute) : MessageRouter :=
  match parseAppID (trailingDigits (trimSpace route.path)) with
  | some id => { r with appIDs := id :: r.appIDs }
  | none => r

/-- The loop of `NewMessageRouter`: a rule whose trimmed path is `*` sets
`allowAll` and returns immediately (rules after it are never examined). -/
def routerLoop : List MessageRoute → MessageRouter → MessageRouter
  | [], r => r
  | route :: rest, r =>
    if trimSpace route.path = ['*'] then { r with allowAll := true }
    else routerLoop rest (addRouteID r route)

/-- `NewMessageRouter` from stream.go. -/
def NewMessageRouter (routes : List MessageRoute) : MessageRouter :=
  routerLoop routes { appIDs := [], allowAll := false }

/-- `MessageRouter.Match` from stream.go. -/
def MessageRouter.Match (r : MessageRouter) (msg : GotifyMessage) : Bool :=
  if r.allowAll then true else r.appIDs.contains msg.appid

/-- The identifier set described by the specification: for each rule, the
trailing decimal digits of its whitespace-trimmed pattern, when nonempty,
contribute their decimal value. (Stated from the spec's words, to be
compared with the router built from the source.) -/
def specDerivedIDs (routes : List MessageRoute) : List Int :=
  routes.filterMap fun route =>
    let d := trailingDigits (trimSpace route.path)
    if d = [] then none else some ((digitsVal d : Nat) : Int)

/- ### Credential cache (wechat.go: TokenCache, getAccessToken) -/

/-- `AccessTokenResponse` from wechat.go. -/
structure AccessTokenResponse where
  accessToken : List Char
  expiresIn : Int
  errcode : Int
  errmsg : List Char

/-- Outcome of the credential-exchange POST to the push API, as observed by
`getAccessToken`: transport failure, unreadable body, unparsable body, or a
decoded `AccessTokenResponse` (whose `errcode`/`accessToken` fields are
inspected afterwards by the caller). -/
inductive ExchangeResult where
  | httpErr (e : List Char)
  | readErr (e : List Char)
  | parseErr (e : List Char)
  | ok (r : AccessTokenResponse)

/-- `TokenCache` from wechat.go; `expiresAt` is an absolute time in
seconds. -/
structure TokenCache where
  token : List Char
  expiresAt : Int
deriving Repr, DecidableEq

/-- Result of one `getAccessToken` call: the returned token or error, the
cache state after the call, and whether a credential-exchange call was
performed. -/
structure TokenFetchResult where
  result : Except (List Char) (List Char)
  cache : TokenCache
  exchanged : Bool

/-- The guard `p.tokenCache.Token != "" &&
time.Now().Before(p.tokenCache.ExpiresAt.Add(-5*time.Minute))`:
a token is present and `now` is strictly before expiry minus 300 s. -/
def cacheValid (c : TokenCache) (now : Int) : Bool :=
  c.token ≠ [] && now < c.expiresAt - 300

/-- `getAccessToken` from wechat.go, for one serialised caller. The
read-locked fast path and the re-check under the exclusive lock test the
same condition against the same cache state, so they collapse into one
guard; `ex` is the outcome the exchange call would produce were it
performed. On success the cache is overwritten with the new token and
`now + expiresIn` seconds; on any failure it is left untouched. -/
def getAccessToken (c : TokenCache) (now : Int) (ex : ExchangeResult) :
    TokenFetchResult :=
  if cacheValid c now then ⟨.ok c.token, c, false⟩
  else
    match ex with
    | .httpErr e => ⟨.error ("failed to request token: ".toList ++ e), c, true⟩
    | .readErr e => ⟨.error ("failed to read response: ".toList ++ e), c, true⟩
    | .parseErr e => ⟨.error ("failed to parse response: ".toList ++ e), c, true⟩
    | .ok r =>
      if r.errcode ≠ 0 then
        ⟨.error ("WeChat API error: ".toList ++ r.errmsg), c, true⟩
      else if r.accessToken = [] then
        ⟨.error "empty access token received".toList, c, true⟩
      else ⟨.ok r.accessToken, ⟨r.accessToken, now + r.expiresIn⟩, true⟩

/-- A failing exchange step, as enumerated in wechat.go: transport error,
unreadable body, unparsable body, non-zero `errcode`, or empty
`access_token`. -/
def exchangeFailed : ExchangeResult → Bool
  | .httpErr _ => true
  | .readErr _ => true
  | .parseErr _ => true
  | .ok r => r.errcode ≠ 0 || r.accessToken = []

/- ### Masking (wechat.go: maskString) -/

/-- `maskString` from wechat.go. Go's `len` and slicing act on raw bytes,
so the string is modelled as its byte list. Strings of byte length at most
8 mask to `****`; longer strings keep their first 4 and last 4 bytes. -/
def maskString (s : List Nat) : List Nat :=
  if s.length ≤ 8 then [42, 42, 42, 42]
  else s.take 4 ++ [42, 42, 42, 42] ++ s.drop (s.length - 4)

/- ### Delivery dispatch (wechat.go: MessageManager, sendToMultiple,
getAllOpenIDs; stream.go: forwardToWeChat) -/

/-- The two counters of `MessageManager` (`totalSent`, `totalFail`).
They are only ever incremented by small positive slice lengths, far from
the `int64` wrap, so they are modelled as naturals. -/
structure MMState where
  totalSent : Nat
  totalFail : Nat
deriving Repr, DecidableEq

/-- Notifications pushed to the host by `MessageManager`: status changes,
delivery confirmations (`successCount`/`totalCount`), and error reports
(`errCount`/`totalCount` plus the per-recipient error lines). -/
inductive Notification where
  | status (userName status : List Char)
  | delivery (title : List Char) (successCount totalCount : Nat)
  | error (title : List Char) (errCount totalCount : Nat)
      (errs : List (List Nat × List Char))
deriving Repr, DecidableEq

/-- Operations of `MessageManager` that an enabled session can perform.
`recordSuccess`/`recordFailure` add to the counters; the notifiers and the
`Stats` read never touch them. -/
inductive MMOp where
  | recordSuccess (count : Nat)
  | recordFailure (count : Nat)
  | notifyStatus
  | notifyDelivery
  | notifyError
  | statsRead
deriving Repr, DecidableEq

/-- Effect of one `MessageManager` operation on the counters
(`RecordSuccess`: `totalSent.Add(count)`; `RecordFailure`:
`totalFail.Add(count)`; everything else leaves them alone). -/
def applyMMOp (s : MMState) : MMOp → MMState
  | .recordSuccess n => { s with totalSent := s.totalSent + n }
  | .recordFailure n => { s with totalFail := s.totalFail + n }
  | _ => s

/-- A sequence of `MessageManager` operations applied in order. -/
def applyMMOps (s : MMState) (ops : List MMOp) : MMState :=
  ops.foldl applyMMOp s

/-- One error entry appended by a failing goroutine of `sendToMultiple`:
`fmt.Errorf("openid %s: %w", maskString(openID), err)` — the masked
recipient address together with the wrapped error text (the rendered Go
message is `"openid " + maskedOpenID + ": " + detail`). -/
structure SendErr where
  maskedOpenID : List Nat
  detail : List Char
deriving Repr, DecidableEq

/-- Result of one `sendToMultiple` call: the returned error slice, the
counter operations it issued, and the notifications it triggered. -/
structure DispatchResult where
  errs : List SendErr
  ops : List MMOp
  notes : List Notification
deriving Repr, DecidableEq

/-- `sendToMultiple` from wechat.go. `send oid = none` models a successful
`sendToWeChat` call for that recipient, `some e` a failure with error text
`e`. The goroutines are independent and joined by the `WaitGroup` barrier;
their interleaving only permutes the error slice, which is modelled here in
recipient order. After the barrier: `RecordFailure`/`NotifyError` fire only
when some send failed, `RecordSuccess`/`NotifyDelivery` only when some send
succeeded. -/
def sendToMultiple (openIDs : List (List Nat)) (title : List Char)
    (send : List Nat → Option (List Char)) : DispatchResult :=
  let errs := (openIDs.filter fun oid => (send oid).isSome).map fun oid =>
    ⟨maskString oid, (send oid).getD []⟩
  let n := openIDs.length
  let successCount := n - errs.length
  let failOps : List MMOp := if errs.length > 0 then [.recordFailure errs.length] else []
  let failNotes : List Notification :=
    if errs.length > 0 then [.error title errs.length n (errs.map fun e => (e.maskedOpenID, e.detail))] else []
  let okOps : List MMOp := if successCount > 0 then [.recordSuccess successCount] else []
  let okNotes : List Notification :=
    if successCount > 0 then [.delivery title successCount n] else []
  ⟨errs, failOps ++ okOps, failNotes ++ okNotes⟩

/-- `Recipient` from config.go: a name and an opaque OpenID address. -/
structure Recipient where
  name : List Char
  openID : List Nat
deriving Repr, DecidableEq

/-- The configuration fields consumed by the delivery path (config.go:
`Config.Recipients`, legacy `Config.OpenID`). -/
structure DeliveryConfig where
  recipients : List Recipient
  openID : List Nat
deriving Repr, DecidableEq

/-- `getAllOpenIDs` from wechat.go: every configured recipient's OpenID,
or the legacy single OpenID when no recipients are configured, or nothing. -/
def getAllOpenIDs (c : DeliveryConfig) : List (List Nat) :=
  if c.recipients.length > 0 then c.recipients.map (·.openID)
  else if c.openID ≠ [] then [c.openID]
  else []

/-- Result of `forwardToWeChat`: `delivered = none` means the event was
dropped before any delivery attempt (no dispatch, no counter operation, no
notification); otherwise the delivered title/content and the dispatch
outcome. -/
structure ForwardResult where
  delivered : Option (List Char × List Char)
  dispatch : Option DispatchResult

/-- `forwardToWeChat` from stream.go: substitute the default title and
content for empty ones, then drop the event when no recipients are
configured, else hand it to `sendToMultiple`. -/
def forwardToWeChat (cfg : DeliveryConfig) (msg : GotifyMessage)
    (send : List Nat → Option (List Char)) : ForwardResult :=
  let title := if msg.title = [] then "Gotify Notification".toList else msg.title
  let content := if msg.message = [] then "(empty message)".toList else msg.message
  let openIDs := getAllOpenIDs cfg
  if openIDs.length = 0 then ⟨none, none⟩
  else ⟨some (title, content), some (sendToMultiple openIDs title send)⟩

/- ### Reconnect backoff (stream.go: StreamListener.Start) -/

/-- One iteration of the supervising loop in `StreamListener.Start`, as the
loop observes it: a stop already requested at the top of the loop;
`connectAndListen` returning nil (which only happens on stop); an error
followed by a stop observed before the wait; an error whose backoff wait is
interrupted by a stop; or an error whose backoff wait runs to completion. -/
inductive LoopEvent where
  | stopBefore
  | connOk
  | errThenStop
  | errStopDuringWait
  | errWaited
deriving Repr, DecidableEq

/-- `2 * time.Minute` in seconds: the backoff ceiling. -/
def maxBackoff : Nat := 120

/-- The backoff update after a completed wait: `backoff *= 2; if backoff >
maxBackoff { backoff = maxBackoff }`. -/
def nextBackoff (b : Nat) : Nat :=
  if b * 2 > maxBackoff then maxBackoff else b * 2

/-- The supervising loop of `StreamListener.Start`, driven by a finite
trace of observed iterations; returns the list of fully elapsed backoff
waits (in seconds) in order. Any stop event terminates the loop with no
further waits; `connOk` continues without waiting (and without resetting
the backoff, which the source never resets). -/
def streamLoop (b : Nat) : List LoopEvent → List Nat
  | [] => []
  | .stopBefore :: _ => []
  | .connOk :: rest => streamLoop b rest
  | .errThenStop :: _ => []
  | .errStopDuringWait :: _ => []
  | .errWaited :: rest => b :: streamLoop (nextBackoff b) rest

/-- The waits performed by `StreamListener.Start` for a given trace:
the loop starts with `backoff := time.Second` (1 s). -/
def startWaits (trace : List LoopEvent) : List Nat :=
  streamLoop 1 trace

/- ### Stream URL resolution (stream.go: resolveGotifyURL) -/

/-- Split a string at the first occurrence of `"://"`, returning the part
before and the part after; `none` when `"://"` does not occur. This is
both the scheme separator of `url.Parse` and the substring test
`strings.Contains(baseURL, "://")` (which holds iff the split succeeds). -/
def splitScheme : List Char → Option (List Char × List Char)
  | [] => none
  | c :: rest =>
    if c = ':' ∧ rest.take 2 = ['/', '/'] then some ([], rest.drop 2)
    else
      match splitScheme rest with
      | none => none
      | some (s, r) => some (c :: s, r)

/-- Characters allowed after the first letter of a URL scheme. -/
def isSchemeChar (c : Char) : Bool :=
  c.isAlpha || ('0' ≤ c && c ≤ '9') || c = '+' || c = '-' || c = '.'

/-- A parsed URL as used by `resolveGotifyURL`: scheme, host (including
any port), path, and decoded query parameters. -/
structure GoURL where
  scheme : List Char
  host : List Char
  path : List Char
  query : List (List Char × List Char)
deriving Repr, DecidableEq

/-- Characters of a plain host: the RFC 3986 unreserved set (ASCII
letters, digits, `-`, `.`, `_`, `~`). `url.Parse` accepts such hosts
verbatim; outside this set a host may need percent-encoding, carry a port
or userinfo, or make `url.Parse` fail (a space gives
`invalid character " " in host name`) — all of that lies outside the
modelled domain. -/
def isHostChar (c : Char) : Bool :=
  c.isAlpha || ('0' ≤ c && c ≤ '9') || c = '-' || c = '.' || c = '_' || c = '~'

/-- Characters of a plain path: unreserved characters and `/`. On such a
path `url.Parse` performs no percent-decoding (there is no `%`, so
`RawPath` stays empty) and `URL.String`'s `EscapedPath` reproduces it
verbatim (none of these characters is escaped by `encodePath`). -/
def isPathChar (c : Char) : Bool :=
  isHostChar c || c = '/'

/-- `url.Parse`, modelled on the domain `resolveGotifyURL` feeds it after
its own preprocessing, restricted to plain absolute URLs
`scheme://host[/path]`: a host of unreserved characters (no port,
userinfo or percent-escapes) and a path of unreserved characters and
slashes (no query, fragment or percent-escapes). On this domain
`url.Parse` succeeds, splitting at the first `"://"` and taking the host
up to the first `/` and the rest as the path. Everything outside the
domain is mapped to `none` — there the real `url.Parse` may instead fail
(invalid host characters, bad ports, bad percent-escapes) or apply
decoding/escaping, and no theorem below quantifies over such inputs. -/
def parseSimpleURL (l : List Char) : Option GoURL :=
  match splitScheme l with
  | none => none
  | some (scheme, rest) =>
    match scheme with
    | [] => none
    | c :: cs =>
      if c.isAlpha && cs.all isSchemeChar &&
          (rest.takeWhile (· ≠ '/')).all isHostChar &&
          (rest.dropWhile (· ≠ '/')).all isPathChar
      then some ⟨scheme, rest.takeWhile (· ≠ '/'), rest.dropWhile (· ≠ '/'), []⟩
      else none

/-- UTF-8 encoding of one character as its byte values. -/
def utf8Encode (c : Char) : List Nat :=
  let n := c.toNat
  if n < 128 then [n]
  else if n < 2048 then [192 + n / 64, 128 + n % 64]
  else if n < 65536 then [224 + n / 4096, 128 + (n / 64) % 64, 128 + n % 64]
  else [240 + n / 262144, 128 + (n / 4096) % 64, 128 + (n / 64) % 64, 128 + n % 64]

/-- Bytes that `url.QueryEscape` leaves unescaped: ASCII letters, digits,
`-`, `_`, `.`, `~`. -/
def isUnreservedByte (b : Nat) : Bool :=
  (65 ≤ b && b ≤ 90) || (97 ≤ b && b ≤ 122) || (48 ≤ b && b ≤ 57) ||
  b = 45 || b = 95 || b = 46 || b = 126

/-- Uppercase hexadecimal digit. -/
def hexDigit (n : Nat) : Char :=
  if n < 10 then Char.ofNat (48 + n) else Char.ofNat (55 + n)

/-- Escaping of one byte by `url.QueryEscape`: unreserved bytes stand for
themselves, space becomes `+`, everything else `%XX`. -/
def escapeByte (b : Nat) : List Char :=
  if isUnreservedByte b then [Char.ofNat b]
  else if b = 32 then ['+']
  else ['%', hexDigit (b / 16), hexDigit (b % 16)]

/-- `url.QueryEscape`: escape the UTF-8 bytes of the string. -/
def queryEscape (s : List Char) : List Char :=
  (s.flatMap utf8Encode).flatMap escapeByte

/-- `url.Values.Set`: replace all values of the key by the single new
value. -/
def querySet (q : List (List Char × List Char)) (k v : List Char) :
    List (List Char × List Char) :=
  (q.filter fun kv => kv.1 ≠ k) ++ [(k, v)]

/-- `url.Values.Encode` for one `key=value` item. -/
def encodeQueryItem (kv : List Char × List Char) : List Char :=
  queryEscape kv.1 ++ '=' :: queryEscape kv.2

/-- `url.Values.Encode`: the `&`-joined escaped items. (`Encode` sorts by
key; every query built by `resolveGotifyURL` holds the single key `token`,
for which sorting is the identity.) -/
def encodeQuery (q : List (List Char × List Char)) : List Char :=
  List.intercalate ['&'] (q.map encodeQueryItem)

/-- `url.URL.String` on the URLs produced here:
`scheme://host path [?rawquery]`. It is only ever applied to URLs coming
out of `parseSimpleURL` (whose paths are made of unreserved characters
and slashes, possibly extended with the literal `/stream`), for which
`EscapedPath` is the identity, so no path escaping step appears. -/
def urlString (u : GoURL) : List Char :=
  u.scheme ++ [':', '/', '/'] ++ u.host ++ u.path ++
    (if u.query = [] then [] else '?' :: encodeQuery u.query)

/-- `strings.TrimSuffix(path, "/")`: drop one trailing slash if present. -/
def trimSuffixSlash (p : List Char) : List Char :=
  if p.getLast? = some '/' then p.dropLast else p

/-- `resolveGotifyURL` from stream.go: default a blank base to
`http://localhost`, prefix `http://` when no `"://"` occurs, parse, map
the scheme (`https → wss`, anything else → `ws`), strip one trailing slash
from the path and append `/stream`, and attach the client token as the
`token` query parameter. The parse step inherits `parseSimpleURL`'s
plain-URL domain; on bases outside it this model returns `none` while the
source's behaviour (a `url.Parse` error, or escaping) is not modelled. -/
def resolveGotifyURL (gotifyURL clientToken : List Char) : Option (List Char) :=
  let base0 := if trimSpace gotifyURL = [] then
    ['h', 't', 't', 'p', ':', '/', '/', 'l', 'o', 'c', 'a', 'l', 'h', 'o', 's', 't']
  else gotifyURL
  let base1 := if (splitScheme base0).isSome then base0 else
    ['h', 't', 't', 'p', ':', '/', '/'] ++ base0
  match parseSimpleURL base1 with
  | none => none
  | some u =>
    let scheme := if u.scheme = ['h', 't', 't', 'p', 's'] then ['w', 's', 's']
      else ['w', 's']
    let path := trimSuffixSlash u.path ++ ['/', 's', 't', 'r', 'e', 'a', 'm']
    let q := querySet u.query ['t', 'o', 'k', 'e', 'n'] clientToken
    some (urlString ⟨scheme, u.host, path, q⟩)

/- ### Serialised concurrent callers of getAccessToken -/

/-- Result of a serialised run of several callers of `getAccessToken`:
final cache, number of credential-exchange calls performed, and each
caller's result in serialisation order. -/
structure MultiFetchResult where
  cache : TokenCache
  exchanges : Nat
  results : List (Except (List Char) (List Char))

/-- `k` concurrent callers of `getAccessToken` in the order the mutex
serialises them. All callers share the clock value `now` (the scenario is
simultaneous contention); the `i`-th exchange call actually performed
receives outcome `oracle i`. Each caller observes the cache state left by
its predecessors — the re-check under the exclusive lock. -/
def runCallers (now : Int) (oracle : Nat → ExchangeResult) :
    Nat → TokenCache → Nat → MultiFetchResult
  | 0, c, cnt => ⟨c, cnt, []⟩
  | k + 1, c, cnt =>
    let r := getAccessToken c now (oracle cnt)
    let cnt' := if r.exchanged then cnt + 1 else cnt
    let rest := runCallers now oracle k r.cache cnt'
    ⟨rest.cache, rest.exchanges, r.result :: rest.results⟩

/- ### Helper lemmas -/

lemma nextBackoff_min_pow (i : Nat) :
    nextBackoff (min (2 ^ i) maxBackoff) = min (2 ^ (i + 1)) maxBackoff := by
  have h2 : 2 ^ (i + 1) = 2 ^ i * 2 := by ring
  unfold nextBackoff maxBackoff
  rcases le_or_lt (2 ^ i) 120 with h | h
  · rw [min_eq_left h]
    rcases le_or_lt (2 ^ (i + 1)) 120 with h' | h'
    · rw [min_eq_left h', if_neg (by omega)]
      omega
    · rw [min_eq_right (by omega : (120 : Nat) ≤ 2 ^ (i + 1)), if_pos (by omega)]
  · rw [min_eq_right (by omega : (120 : Nat) ≤ 2 ^ i),
      min_eq_right (by omega : (120 : Nat) ≤ 2 ^ (i + 1)), if_pos (by omega)]

lemma iterate_nextBackoff (i : Nat) :
    nextBackoff^[i] 1 = min (2 ^ i) maxBackoff := by
  induction i with
  | zero => simp [maxBackoff]
  | succ n ih =>
    rw [Function.iterate_succ_apply', ih, nextBackoff_min_pow]

lemma streamLoop_replicate (n : Nat) (b : Nat) :
    streamLoop b (List.replicate n .errWaited) =
      (List.range n).map fun i => nextBackoff^[i] b := by
  induction n generalizing b with
  | zero => simp [streamLoop]
  | succ m ih =>
    rw [List.replicate_succ]
    show b :: streamLoop (nextBackoff b) (List.replicate m .errWaited) = _
    rw [ih, List.range_succ_eq_map, List.map_cons, List.map_map]
    congr 1

/- ### Claim theorems -/

/-- C5: In the supervising loop of `StreamListener.Start`, the reconnect
wait starts at 1 second and consecutive connection failures without an
intervening success double it, capped at the 2-minute (120 s) ceiling —
after `n` consecutive failures the waits performed are
`min (2^0) 120, min (2^1) 120, …, min (2^(n-1)) 120`, the first being
1 s — and a stop request observed during the wait (or at any check point)
interrupts it and terminates the loop with no further waits. -/
theorem stream_backoff_spec :
    (∀ n : Nat, startWaits (List.replicate n .errWaited) =
      (List.range n).map fun i => min (2 ^ i) maxBackoff) ∧
    (∀ rest : List LoopEvent, startWaits (.errWaited :: rest) =
      1 :: streamLoop (nextBackoff 1) rest) ∧
    (∀ (b : Nat) (rest : List LoopEvent),
      streamLoop b (.errStopDuringWait :: rest) = [] ∧
      streamLoop b (.errThenStop :: rest) = [] ∧
      streamLoop b (.stopBefore :: rest) = []) := by
  refine ⟨fun n => ?_, fun rest => rfl, fun b rest => ⟨rfl, rfl, rfl⟩⟩
  rw [startWaits, streamLoop_replicate]
  exact List.map_congr_left fun i _ => iterate_nextBackoff i

/-- C8: `maskString` returns the first 4 bytes, `****`, and the last 4
bytes of a string longer than 8 bytes; a string shorter than 8 bytes masks
to exactly `****`; and no byte of the input other than its first 4 and
last 4 ever appears in the output (every output byte is `*` = 42 or comes
from those two slices). -/
theorem maskString_spec (s : List Nat) :
    (8 < s.length →
      maskString s = s.take 4 ++ [42, 42, 42, 42] ++ s.drop (s.length - 4)) ∧
    (s.length < 8 → maskString s = [42, 42, 42, 42]) ∧
    (∀ b ∈ maskString s,
      b = 42 ∨ b ∈ s.take 4 ∨ b ∈ s.drop (s.length - 4)) := by
  unfold maskString
  split
  · refine ⟨fun h => absurd h (by omega), fun _ => rfl, fun b hb => ?_⟩
    simp only [List.mem_cons, List.not_mem_nil, or_false] at hb
    rcases hb with h | h | h | h <;> exact Or.inl h
  · refine ⟨fun _ => rfl, fun h => absurd h (by omega), fun b hb => ?_⟩
    simp only [List.mem_append, List.mem_cons, List.not_mem_nil, or_false] at hb
    rcases hb with (h | h) | h
    · exact Or.inr (Or.inl h)
    · rcases h with h | h | h | h <;> exact Or.inl h
    · exact Or.inr (Or.inr h)

/-- Witness for C8 at concrete inputs: a 12-byte string and a 3-byte
string. -/
theorem maskString_spec_witness :
    maskString [1, 2, 3, 4, 5, 6, 7, 8, 9, 10, 11, 12] =
      [1, 2, 3, 4, 42, 42, 42, 42, 9, 10, 11, 12] ∧
    maskString [7, 8, 9] = [42, 42, 42, 42] := by
  constructor
  · exact ((maskString_spec [1, 2, 3, 4, 5, 6, 7, 8, 9, 10, 11, 12]).1
      (by decide)).trans (by decide)
  · exact (maskString_spec [7, 8, 9]).2.1 (by decide)

lemma getAccessToken_valid (c : TokenCache) (now : Int) (ex : ExchangeResult)
    (h : cacheValid c now = true) :
    getAccessToken c now ex = ⟨.ok c.token, c, false⟩ := by
  unfold getAccessToken
  rw [if_pos h]

lemma getAccessToken_invalid_ok (c : TokenCache) (now : Int)
    (r : AccessTokenResponse) (h : cacheValid c now = false)
    (hcode : r.errcode = 0) (htok : r.accessToken ≠ []) :
    getAccessToken c now (.ok r) =
      ⟨.ok r.accessToken, ⟨r.accessToken, now + r.expiresIn⟩, true⟩ := by
  unfold getAccessToken
  rw [if_neg (by simp [h])]
  simp [hcode, htok]

lemma getAccessToken_invalid_fail (c : TokenCache) (now : Int)
    (ex : ExchangeResult) (h : cacheValid c now = false)
    (hfail : exchangeFailed ex = true) :
    ∃ e, getAccessToken c now ex = ⟨.error e, c, true⟩ := by
  unfold getAccessToken
  rw [if_neg (by simp [h])]
  cases ex with
  | httpErr e => exact ⟨_, rfl⟩
  | readErr e => exact ⟨_, rfl⟩
  | parseErr e => exact ⟨_, rfl⟩
  | ok r =>
    simp only [exchangeFailed, Bool.or_eq_true, decide_eq_true_eq] at hfail
    dsimp only
    by_cases hc : r.errcode = 0
    · have htok : r.accessToken = [] := by tauto
      rw [if_neg (by simp [hc]), if_pos htok]
      exact ⟨_, rfl⟩
    · rw [if_pos (by simpa using hc)]
      exact ⟨_, rfl⟩

lemma getAccessToken_exchanged (c : TokenCache) (now : Int)
    (ex : ExchangeResult) :
    (getAccessToken c now ex).exchanged = !cacheValid c now := by
  by_cases hv : cacheValid c now = true
  · rw [getAccessToken_valid c now ex hv, hv]
    rfl
  · rw [Bool.not_eq_true] at hv
    rw [hv]
    by_cases hf : exchangeFailed ex = true
    · obtain ⟨e, he⟩ := getAccessToken_invalid_fail c now ex hv hf
      rw [he]
      rfl
    · cases ex with
      | httpErr e => simp [exchangeFailed] at hf
      | readErr e => simp [exchangeFailed] at hf
      | parseErr e => simp [exchangeFailed] at hf
      | ok r =>
        simp only [exchangeFailed, Bool.or_eq_true, decide_eq_true_eq,
          not_or] at hf
        rw [getAccessToken_invalid_ok c now r hv (by tauto) (by tauto)]
        rfl

lemma getAccessToken_cache_changed (c : TokenCache) (now : Int)
    (ex : ExchangeResult) (h : (getAccessToken c now ex).cache ≠ c) :
    ∃ r, ex = .ok r ∧ r.errcode = 0 ∧ r.accessToken ≠ [] ∧
      cacheValid c now = false ∧
      getAccessToken c now ex =
        ⟨.ok r.accessToken, ⟨r.accessToken, now + r.expiresIn⟩, true⟩ := by
  by_cases hv : cacheValid c now = true
  · rw [getAccessToken_valid c now ex hv] at h
    exact absurd rfl h
  · rw [Bool.not_eq_true] at hv
    by_cases hf : exchangeFailed ex = true
    · obtain ⟨e, he⟩ := getAccessToken_invalid_fail c now ex hv hf
      rw [he] at h
      exact absurd rfl h
    · cases ex with
      | httpErr e => simp [exchangeFailed] at hf
      | readErr e => simp [exchangeFailed] at hf
      | parseErr e => simp [exchangeFailed] at hf
      | ok r =>
        simp only [exchangeFailed, Bool.or_eq_true, decide_eq_true_eq,
          not_or] at hf
        exact ⟨r, rfl, by tauto, by tauto, hv,
          getAccessToken_invalid_ok c now r hv (by tauto) (by tauto)⟩

/-- C2: `getAccessToken` returns the cached token without performing a
credential-exchange call iff a token is present and `now` is strictly
before expiry minus 5 minutes (300 s); and in the scenario of a credential
with `expires_in = 600` fetched at time `T`, the fresh token is returned
as-is and cached with expiry `T + 600`, a request at `T + 100` returns the
cached token without an exchange, and a request at `T + 595` performs an
exchange. -/
theorem token_cache_margin_spec :
    (∀ (c : TokenCache) (now : Int) (ex : ExchangeResult),
      ((getAccessToken c now ex).exchanged = false ∧
        (getAccessToken c now ex).result = .ok c.token) ↔
      (c.token ≠ [] ∧ now < c.expiresAt - 300)) ∧
    (∀ (T : Int) (ex : ExchangeResult),
      (getAccessToken ⟨[], 0⟩ T (.ok ⟨['t'], 600, 0, []⟩)).result = .ok ['t'] ∧
      (getAccessToken ⟨[], 0⟩ T (.ok ⟨['t'], 600, 0, []⟩)).cache =
        ⟨['t'], T + 600⟩ ∧
      (getAccessToken ⟨['t'], T + 600⟩ (T + 100) ex).exchanged = false ∧
      (getAccessToken ⟨['t'], T + 600⟩ (T + 100) ex).result = .ok ['t'] ∧
      (getAccessToken ⟨['t'], T + 600⟩ (T + 595) ex).exchanged = true) := by
  constructor
  · intro c now ex
    constructor
    · rintro ⟨hex, _⟩
      rw [getAccessToken_exchanged] at hex
      have hv : cacheValid c now = true := by
        cases hcv : cacheValid c now
        · rw [hcv] at hex
          cases hex
        · rfl
      simpa [cacheValid, Bool.and_eq_true, decide_eq_true_eq] using hv
    · rintro ⟨h1, h2⟩
      have hv : cacheValid c now = true := by
        simp only [cacheValid, Bool.and_eq_true, decide_eq_true_eq]
        exact ⟨by simpa using h1, h2⟩
      rw [getAccessToken_valid c now ex hv]
      exact ⟨rfl, rfl⟩
  · intro T ex
    have hv0 : cacheValid ⟨[], 0⟩ T = false := by simp [cacheValid]
    have h1 := getAccessToken_invalid_ok ⟨[], 0⟩ T ⟨['t'], 600, 0, []⟩ hv0 rfl
      (by simp)
    have hv1 : cacheValid ⟨['t'], T + 600⟩ (T + 100) = true := by
      simp only [cacheValid, Bool.and_eq_true, decide_eq_true_eq]
      refine ⟨by simp, by omega⟩
    have hv2 : cacheValid ⟨['t'], T + 600⟩ (T + 595) = false := by
      simp only [cacheValid]
      have : ¬((T + 595 : Int) < T + 600 - 300) := by omega
      simp [this]
    refine ⟨?_, ?_, ?_, ?_, ?_⟩
    · rw [h1]
    · rw [h1]
    · rw [getAccessToken_exchanged, hv1]
      rfl
    · rw [getAccessToken_valid _ _ _ hv1]
    · rw [getAccessToken_exchanged, hv2]
      rfl

/-- C3: whenever the credential-exchange step fails — transport error,
unreadable body, unparsable body, non-zero `errcode`, or empty
`access_token` — `getAccessToken` leaves the cached `(Token, ExpiresAt)`
pair exactly as it was and, if the exchange was actually performed,
returns an error; the cached fields change only on a fully successful
exchange (zero `errcode`, nonempty token), in which case the new token and
`now + expires_in` are stored and returned. -/
theorem token_cache_failure_spec (c : TokenCache) (now : Int)
    (ex : ExchangeResult) (hfail : exchangeFailed ex = true) :
    (getAccessToken c now ex).cache = c ∧
    ((getAccessToken c now ex).exchanged = true →
      ∃ e, (getAccessToken c now ex).result = .error e) ∧
    ∀ ex2 : ExchangeResult, (getAccessToken c now ex2).cache ≠ c →
      ∃ r, ex2 = .ok r ∧ r.errcode = 0 ∧ r.accessToken ≠ [] ∧
        (getAccessToken c now ex2).result = .ok r.accessToken ∧
        (getAccessToken c now ex2).cache = ⟨r.accessToken, now + r.expiresIn⟩ := by
  refine ⟨?_, ?_, ?_⟩
  · by_cases hv : cacheValid c now = true
    · rw [getAccessToken_valid c now ex hv]
    · rw [Bool.not_eq_true] at hv
      obtain ⟨e, he⟩ := getAccessToken_invalid_fail c now ex hv hfail
      rw [he]
  · intro hex
    rw [getAccessToken_exchanged] at hex
    have hv : cacheValid c now = false := by
      cases hcv : cacheValid c now
      · rfl
      · rw [hcv] at hex
        cases hex
    obtain ⟨e, he⟩ := getAccessToken_invalid_fail c now ex hv hfail
    rw [he]
    exact ⟨e, rfl⟩
  · intro ex2 hne
    obtain ⟨r, hex2, hcode, htok, _, heq⟩ :=
      getAccessToken_cache_changed c now ex2 hne
    exact ⟨r, hex2, hcode, htok, by rw [heq], by rw [heq]⟩

/-- Witness for C3: a transport failure at a concrete cache state leaves
the cache untouched and yields an error. -/
theorem token_cache_failure_spec_witness :
    exchangeFailed (.httpErr ['x']) = true ∧
    (getAccessToken ⟨['t'], 0⟩ 5 (.httpErr ['x'])).cache = ⟨['t'], 0⟩ ∧
    ∃ e, (getAccessToken ⟨['t'], 0⟩ 5 (.httpErr ['x'])).result = .error e := by
  refine ⟨by decide, (token_cache_failure_spec ⟨['t'], 0⟩ 5 (.httpErr ['x'])
    (by decide)).1, (token_cache_failure_spec ⟨['t'], 0⟩ 5 (.httpErr ['x'])
    (by decide)).2.1 (by decide)⟩

lemma sendToMultiple_errs (openIDs : List (List Nat)) (title : List Char)
    (send : List Nat → Option (List Char)) :
    (sendToMultiple openIDs title send).errs =
      (openIDs.filter fun oid => (send oid).isSome).map
        (fun oid => ⟨maskString oid, (send oid).getD []⟩) := rfl

lemma sendToMultiple_ops (openIDs : List (List Nat)) (title : List Char)
    (send : List Nat → Option (List Char)) :
    (sendToMultiple openIDs title send).ops =
      (if 0 < (openIDs.filter fun oid => (send oid).isSome).length then
        [.recordFailure (openIDs.filter fun oid => (send oid).isSome).length]
      else []) ++
      (if 0 < openIDs.length -
            (openIDs.filter fun oid => (send oid).isSome).length then
        [.recordSuccess (openIDs.length -
          (openIDs.filter fun oid => (send oid).isSome).length)]
      else []) := by
  simp only [sendToMultiple, List.length_map, gt_iff_lt]

lemma sendToMultiple_notes (openIDs : List (List Nat)) (title : List Char)
    (send : List Nat → Option (List Char)) :
    (sendToMultiple openIDs title send).notes =
      (if 0 < (openIDs.filter fun oid => (send oid).isSome).length then
        [.error title (openIDs.filter fun oid => (send oid).isSome).length
          openIDs.length
          ((sendToMultiple openIDs title send).errs.map fun e =>
            (e.maskedOpenID, e.detail))]
      else []) ++
      (if 0 < openIDs.length -
            (openIDs.filter fun oid => (send oid).isSome).length then
        [.delivery title (openIDs.length -
          (openIDs.filter fun oid => (send oid).isSome).length)
          openIDs.length]
      else []) := by
  simp only [sendToMultiple, List.length_map, gt_iff_lt]

/-- C4: for a `sendToMultiple` call on `N` recipients of which `K`
individual sends fail, the returned error list has exactly `K` entries,
each identifying its recipient by the masked form of its address; the
failure counter grows by `K` (a `RecordFailure` operation is issued only
when `K > 0`), the success counter by `N − K` (a `RecordSuccess` only when
`N − K > 0`); and the error/delivery notifications report exactly `K` of
`N` and `N − K` of `N` respectively. -/
theorem sendToMultiple_spec (openIDs : List (List Nat)) (title : List Char)
    (send : List Nat → Option (List Char)) (s : MMState) :
    (sendToMultiple openIDs title send).errs.length =
      (openIDs.filter fun oid => (send oid).isSome).length ∧
    (∀ e ∈ (sendToMultiple openIDs title send).errs,
      ∃ oid ∈ openIDs, (send oid).isSome ∧ e.maskedOpenID = maskString oid) ∧
    (applyMMOps s (sendToMultiple openIDs title send).ops).totalFail =
      s.totalFail + (openIDs.filter fun oid => (send oid).isSome).length ∧
    (applyMMOps s (sendToMultiple openIDs title send).ops).totalSent =
      s.totalSent + (openIDs.length -
        (openIDs.filter fun oid => (send oid).isSome).length) ∧
    (sendToMultiple openIDs title send).notes =
      (if 0 < (openIDs.filter fun oid => (send oid).isSome).length then
        [.error title (openIDs.filter fun oid => (send oid).isSome).length
          openIDs.length
          ((sendToMultiple openIDs title send).errs.map fun e =>
            (e.maskedOpenID, e.detail))]
      else []) ++
      (if 0 < openIDs.length -
            (openIDs.filter fun oid => (send oid).isSome).length then
        [.delivery title (openIDs.length -
          (openIDs.filter fun oid => (send oid).isSome).length)
          openIDs.length]
      else []) := by
  refine ⟨?_, ?_, ?_, ?_, sendToMultiple_notes openIDs title send⟩
  · rw [sendToMultiple_errs, List.length_map]
  · intro e he
    rw [sendToMultiple_errs] at he
    obtain ⟨oid, hmem, rfl⟩ := List.mem_map.mp he
    have := List.mem_filter.mp hmem
    exact ⟨oid, this.1, by simpa using this.2, rfl⟩
  · rw [sendToMultiple_ops, applyMMOps, List.foldl_append]
    by_cases hk : 0 < (openIDs.filter fun oid => (send oid).isSome).length
    · rw [if_pos hk]
      by_cases hs : 0 < openIDs.length -
          (openIDs.filter fun oid => (send oid).isSome).length
      · rw [if_pos hs]
        simp [applyMMOp]
      · rw [if_neg hs]
        simp [applyMMOp]
    · rw [if_neg hk]
      have hk0 : (openIDs.filter fun oid => (send oid).isSome).length = 0 := by
        omega
      by_cases hs : 0 < openIDs.length -
          (openIDs.filter fun oid => (send oid).isSome).length
      · rw [if_pos hs]
        simp [applyMMOp, hk0]
      · rw [if_neg hs]
        simp [applyMMOp, hk0]
  · rw [sendToMultiple_ops, applyMMOps, List.foldl_append]
    by_cases hk : 0 < (openIDs.filter fun oid => (send oid).isSome).length
    · rw [if_pos hk]
      by_cases hs : 0 < openIDs.length -
          (openIDs.filter fun oid => (send oid).isSome).length
      · rw [if_pos hs]
        simp [applyMMOp]
      · rw [if_neg hs]
        have hs0 : openIDs.length -
            (openIDs.filter fun oid => (send oid).isSome).length = 0 := by
          omega
        simp [applyMMOp, hs0]
    · rw [if_neg hk]
      by_cases hs : 0 < openIDs.length -
          (openIDs.filter fun oid => (send oid).isSome).length
      · rw [if_pos hs]
        simp [applyMMOp]
      · rw [if_neg hs]
        have hs0 : openIDs.length -
            (openIDs.filter fun oid => (send oid).isSome).length = 0 := by
          omega
        simp [applyMMOp, hs0]

/-- Witness for C4: two recipients, the 9-byte one failing — one error
entry carrying the masked address, counters grow by 1 and 1, and the two
notifications report 1/2 and 1/2. -/
theorem sendToMultiple_spec_witness :
    (sendToMultiple [[1], [9, 9, 9, 9, 9, 9, 9, 9, 9]] ['t']
      (fun oid => if oid.length = 1 then none else some ['e'])).errs.length = 1 ∧
    (∀ e ∈ (sendToMultiple [[1], [9, 9, 9, 9, 9, 9, 9, 9, 9]] ['t']
        (fun oid => if oid.length = 1 then none else some ['e'])).errs,
      ∃ oid ∈ [[1], [9, 9, 9, 9, 9, 9, 9, 9, 9]],
        ((fun oid => if oid.length = 1 then none else
          some ['e']) oid).isSome ∧ e.maskedOpenID = maskString oid) ∧
    (applyMMOps ⟨3, 4⟩ (sendToMultiple [[1], [9, 9, 9, 9, 9, 9, 9, 9, 9]] ['t']
      (fun oid => if oid.length = 1 then none else
        some ['e'])).ops).totalFail = 5 ∧
    (applyMMOps ⟨3, 4⟩ (sendToMultiple [[1], [9, 9, 9, 9, 9, 9, 9, 9, 9]] ['t']
      (fun oid => if oid.length = 1 then none else
        some ['e'])).ops).totalSent = 4 := by
  have h := sendToMultiple_spec [[1], [9, 9, 9, 9, 9, 9, 9, 9, 9]] ['t']
    (fun oid => if oid.length = 1 then none else some ['e']) ⟨3, 4⟩
  exact ⟨h.1.trans (by decide), h.2.1, h.2.2.1.trans (by decide),
    h.2.2.2.1.trans (by decide)⟩

/-- C9: the total-sent and total-failed counters are monotonically
non-decreasing — no `MessageManager` operation (and hence no sequence of
them) ever decreases or resets either counter — and every counter update
issued by the delivery path (`sendToMultiple`) carries a strictly positive
count. -/
theorem counters_monotone_spec :
    (∀ (s : MMState) (op : MMOp),
      s.totalSent ≤ (applyMMOp s op).totalSent ∧
      s.totalFail ≤ (applyMMOp s op).totalFail) ∧
    (∀ (s : MMState) (ops : List MMOp),
      s.totalSent ≤ (applyMMOps s ops).totalSent ∧
      s.totalFail ≤ (applyMMOps s ops).totalFail) ∧
    (∀ (openIDs : List (List Nat)) (title : List Char)
      (send : List Nat → Option (List Char)) (m : Nat),
      (MMOp.recordFailure m ∈ (sendToMultiple openIDs title send).ops →
        0 < m) ∧
      (MMOp.recordSuccess m ∈ (sendToMultiple openIDs title send).ops →
        0 < m)) := by
  have hone : ∀ (s : MMState) (op : MMOp),
      s.totalSent ≤ (applyMMOp s op).totalSent ∧
      s.totalFail ≤ (applyMMOp s op).totalFail := by
    intro s op
    cases op <;> simp [applyMMOp]
  refine ⟨hone, ?_, ?_⟩
  · intro s ops
    induction ops generalizing s with
    | nil => exact ⟨le_refl _, le_refl _⟩
    | cons op rest ih =>
      have h1 := hone s op
      have h2 := ih (applyMMOp s op)
      exact ⟨le_trans h1.1 h2.1, le_trans h1.2 h2.2⟩
  · intro openIDs title send m
    rw [sendToMultiple_ops]
    constructor <;> intro hm <;> rw [List.mem_append] at hm
    · rcases hm with hm | hm <;> split at hm <;>
        simp_all
    · rcases hm with hm | hm <;> split at hm <;>
        simp_all

/-- Witness for C9: a concrete operation sequence containing the ops of a
concrete dispatch never decreases the counters, and the dispatch's
recorded failure count is positive. -/
theorem counters_monotone_spec_witness :
    (⟨3, 4⟩ : MMState).totalSent ≤
      (applyMMOps ⟨3, 4⟩ [.recordSuccess 2, .notifyDelivery,
        .recordFailure 1]).totalSent ∧
    (0 < 1 ↔ (MMOp.recordFailure 1 ∈ (sendToMultiple [[1]] ['t']
      (fun _ => some ['e'])).ops → (0 : Nat) < 1)) := by
  refine ⟨(counters_monotone_spec.2.1 ⟨3, 4⟩ [.recordSuccess 2,
    .notifyDelivery, .recordFailure 1]).1, ?_⟩
  constructor
  · intro _ _
    decide
  · intro _
    exact (counters_monotone_spec.2.2 [[1]] ['t'] (fun _ => some ['e']) 1).1
      (by decide)

/-- C10: for every event forwarded to the delivery path, an empty title is
replaced by "Gotify Notification" and an empty body by "(empty message)"
(nonempty ones pass through unchanged); and when no recipients are
configured the event is dropped: no dispatch, hence no counter operation
and no notification. -/
theorem forwardToWeChat_spec (cfg : DeliveryConfig) (msg : GotifyMessage)
    (send : List Nat → Option (List Char)) :
    (getAllOpenIDs cfg = [] →
      (forwardToWeChat cfg msg send).delivered = none ∧
      (forwardToWeChat cfg msg send).dispatch = none) ∧
    (getAllOpenIDs cfg ≠ [] →
      ∃ t c, forwardToWeChat cfg msg send =
          ⟨some (t, c), some (sendToMultiple (getAllOpenIDs cfg) t send)⟩ ∧
        (msg.title = [] → t = "Gotify Notification".toList) ∧
        (msg.title ≠ [] → t = msg.title) ∧
        (msg.message = [] → c = "(empty message)".toList) ∧
        (msg.message ≠ [] → c = msg.message)) := by
  constructor
  · intro h
    have hlen : (getAllOpenIDs cfg).length = 0 := by rw [h]; rfl
    constructor <;> simp [forwardToWeChat, hlen]
  · intro h
    have hlen : ¬((getAllOpenIDs cfg).length = 0) := by
      simpa [List.length_eq_zero] using h
    refine ⟨if msg.title = [] then "Gotify Notification".toList else msg.title,
      if msg.message = [] then "(empty message)".toList else msg.message,
      ?_, fun h' => by rw [if_pos h'], fun h' => by rw [if_neg h'],
      fun h' => by rw [if_pos h'], fun h' => by rw [if_neg h']⟩
    simp only [forwardToWeChat, if_neg hlen]

/-- Witness for C10: an event with empty title and body, one configured
recipient, and separately a configuration with no recipients. -/
theorem forwardToWeChat_spec_witness :
    ((forwardToWeChat ⟨[], []⟩ ⟨1, 2, [], [], 0, [], []⟩
        (fun _ => none)).delivered = none ∧
      (forwardToWeChat ⟨[], []⟩ ⟨1, 2, [], [], 0, [], []⟩
        (fun _ => none)).dispatch = none) ∧
    ∃ t c, forwardToWeChat ⟨[⟨['u'], [7]⟩], []⟩ ⟨1, 2, [], [], 0, [], []⟩
        (fun _ => none) =
      ⟨some (t, c), some (sendToMultiple
        (getAllOpenIDs ⟨[⟨['u'], [7]⟩], []⟩) t (fun _ => none))⟩ ∧
      t = "Gotify Notification".toList ∧ c = "(empty message)".toList := by
  constructor
  · exact (forwardToWeChat_spec ⟨[], []⟩ ⟨1, 2, [], [], 0, [], []⟩
      (fun _ => none)).1 (by decide)
  · obtain ⟨t, c, heq, ht, _, hc, _⟩ :=
      (forwardToWeChat_spec ⟨[⟨['u'], [7]⟩], []⟩ ⟨1, 2, [], [], 0, [], []⟩
        (fun _ => none)).2 (by decide)
    exact ⟨t, c, heq, ht rfl, hc rfl⟩

lemma addRouteID_allowAll (r : MessageRouter) (route : MessageRoute) :
    (addRouteID r route).allowAll = r.allowAll := by
  rcases hp : parseAppID (trailingDigits (trimSpace route.path)) with _ | id <;>
    simp [addRouteID, hp]

lemma routerLoop_allowAll (routes : List MessageRoute) (r : MessageRouter) :
    (routerLoop routes r).allowAll =
      (r.allowAll || routes.any fun rt => trimSpace rt.path = ['*']) := by
  induction routes generalizing r with
  | nil => simp [routerLoop]
  | cons route rest ih =>
    by_cases h : trimSpace route.path = ['*']
    · simp [routerLoop, h]
    · simp [routerLoop, h, ih, addRouteID_allowAll]

lemma routerLoop_mem (routes : List MessageRoute) (r : MessageRouter)
    (a : Int) (hstar : ∀ rt ∈ routes, ¬ trimSpace rt.path = ['*']) :
    a ∈ (routerLoop routes r).appIDs ↔
      a ∈ r.appIDs ∨ ∃ rt ∈ routes,
        parseAppID (trailingDigits (trimSpace rt.path)) = some a := by
  induction routes generalizing r with
  | nil => simp [routerLoop]
  | cons route rest ih =>
    have h := hstar route (List.mem_cons_self _ _)
    rw [routerLoop, if_neg h,
      ih _ (fun rt hrt => hstar rt (List.mem_cons_of_mem _ hrt))]
    rcases hp : parseAppID (trailingDigits (trimSpace route.path)) with _ | id
    · simp only [addRouteID, hp, List.exists_mem_cons_iff]
      constructor
      · rintro (hm | hex)
        · exact Or.inl hm
        · exact Or.inr (Or.inr hex)
      · rintro (hm | hfalse | hex)
        · exact Or.inl hm
        · cases hfalse
        · exact Or.inr hex
    · simp only [addRouteID, hp, List.exists_mem_cons_iff,
        Option.some.injEq]
      rw [List.mem_cons]
      constructor
      · rintro ((heq | hm) | hex)
        · exact Or.inr (Or.inl heq.symm)
        · exact Or.inl hm
        · exact Or.inr (Or.inr hex)
      · rintro (hm | heq | hex)
        · exact Or.inl (Or.inr hm)
        · exact Or.inl (Or.inl heq.symm)
        · exact Or.inr hex

lemma contains_int_iff (l : List Int) (a : Int) :
    l.contains a = true ↔ a ∈ l := by
  induction l with
  | nil => simp
  | cons b t ih => simp [List.contains_cons, ih]

lemma parseAppID_eq_some_iff (d : List Char) (a : Int) (ha : a ≤ int64Max) :
    parseAppID d = some a ↔ d ≠ [] ∧ (digitsVal d : Int) = a := by
  unfold parseAppID
  by_cases hd : d = []
  · simp [hd]
  · rw [if_neg hd]
    by_cases hle : (digitsVal d : Int) ≤ int64Max
    · simp [hle, hd]
    · rw [if_neg hle]
      simp only [hd, ne_eq, not_false_eq_true, true_and]
      constructor
      · intro h
        cases h
      · intro heq
        exact (hle (le_of_eq_of_le heq ha)).elim

/-- C1: if any rule's trimmed pattern is `*`, `Match` returns true for
every event regardless of the other rules; otherwise (for any application
identifier in the `int64` range) `Match` returns true iff the identifier
is in the set derived by taking each rule's trailing decimal digits of its
whitespace-trimmed pattern, rules without trailing digits contributing
nothing. -/
theorem Match_spec (routes : List MessageRoute) (msg : GotifyMessage) :
    ((∃ rt ∈ routes, trimSpace rt.path = ['*']) →
      (NewMessageRouter routes).Match msg = true) ∧
    ((∀ rt ∈ routes, ¬ trimSpace rt.path = ['*']) → msg.appid ≤ int64Max →
      ((NewMessageRouter routes).Match msg = true ↔
        msg.appid ∈ specDerivedIDs routes)) := by
  constructor
  · rintro ⟨rt, hmem, hstar⟩
    have hall : (NewMessageRouter routes).allowAll = true := by
      rw [NewMessageRouter, routerLoop_allowAll]
      simp only [Bool.false_or, List.any_eq_true, decide_eq_true_eq]
      exact ⟨rt, hmem, hstar⟩
    simp [MessageRouter.Match, hall]
  · intro hstar hbound
    have hall : (NewMessageRouter routes).allowAll = false := by
      rw [NewMessageRouter, routerLoop_allowAll]
      simp only [Bool.false_or, List.any_eq_false, decide_eq_true_eq]
      exact hstar
    rw [MessageRouter.Match, if_neg (by simp [hall])]
    rw [contains_int_iff]
    rw [NewMessageRouter]
    rw [routerLoop_mem routes _ msg.appid hstar]
    simp only [List.not_mem_nil, false_or]
    rw [specDerivedIDs]
    rw [List.mem_filterMap]
    constructor
    · rintro ⟨rt, hmem, hp⟩
      refine ⟨rt, hmem, ?_⟩
      have := (parseAppID_eq_some_iff _ _ hbound).mp hp
      simp only [if_neg this.1]
      exact congrArg some this.2
    · rintro ⟨rt, hmem, hp⟩
      refine ⟨rt, hmem, ?_⟩
      by_cases hd : trailingDigits (trimSpace rt.path) = []
      · rw [if_pos hd] at hp
        cases hp
      · rw [if_neg hd] at hp
        exact (parseAppID_eq_some_iff _ _ hbound).mpr
          ⟨hd, Option.some.inj hp⟩

/-- Witness for C1, the spec's example scenarios: rules
`["messages/1", "messages/3"]` match application id 1 and reject id 2; a
rule set containing `*` matches any id. -/
theorem Match_spec_witness :
    (NewMessageRouter [⟨"messages/1".toList⟩, ⟨"messages/3".toList⟩]).Match
      ⟨1, 1, [], [], 0, [], []⟩ = true ∧
    ¬ (NewMessageRouter [⟨"messages/1".toList⟩, ⟨"messages/3".toList⟩]).Match
      ⟨2, 2, [], [], 0, [], []⟩ = true ∧
    (NewMessageRouter [⟨"*".toList⟩, ⟨"messages/3".toList⟩]).Match
      ⟨9, 9, [], [], 0, [], []⟩ = true := by
  refine ⟨?_, ?_, ?_⟩
  · exact ((Match_spec [⟨"messages/1".toList⟩, ⟨"messages/3".toList⟩]
      ⟨1, 1, [], [], 0, [], []⟩).2 (by decide) (by decide)).mpr (by decide)
  · intro h
    have := ((Match_spec [⟨"messages/1".toList⟩, ⟨"messages/3".toList⟩]
      ⟨2, 2, [], [], 0, [], []⟩).2 (by decide) (by decide)).mp h
    exact absurd this (by decide)
  · exact (Match_spec [⟨"*".toList⟩, ⟨"messages/3".toList⟩]
      ⟨9, 9, [], [], 0, [], []⟩).1 ⟨⟨"*".toList⟩, by decide, by decide⟩

lemma runCallers_valid (now : Int) (oracle : Nat → ExchangeResult)
    (k : Nat) (c : TokenCache) (cnt : Nat) (hv : cacheValid c now = true) :
    runCallers now oracle k c cnt = ⟨c, cnt, List.replicate k (.ok c.token)⟩ := by
  induction k generalizing cnt with
  | zero => rfl
  | succ m ih =>
    simp only [runCallers, getAccessToken_valid c now (oracle cnt) hv]
    rw [if_neg (by simp)]
    rw [ih cnt]
    simp [List.replicate_succ]

lemma runCallers_fail (now : Int) (oracle : Nat → ExchangeResult)
    (hfail : ∀ i, exchangeFailed (oracle i) = true) :
    ∀ (k : Nat) (c : TokenCache) (cnt : Nat), cacheValid c now = false →
      (runCallers now oracle k c cnt).exchanges = cnt + k := by
  intro k
  induction k with
  | zero =>
    intro c cnt hv
    rfl
  | succ m ih =>
    intro c cnt hv
    obtain ⟨e, he⟩ := getAccessToken_invalid_fail c now (oracle cnt) hv
      (hfail cnt)
    simp only [runCallers, he]
    rw [if_pos trivial]
    rw [ih c (cnt + 1) hv]
    omega

/-- C6 counterexample: two callers arriving while no valid cached token
exists, with the credential exchange failing — the code performs one
exchange call per caller (two in total), not a single one whose failure is
shared by all callers. -/
theorem single_flight_cex :
    (runCallers 0 (fun _ => .httpErr []) 2 ⟨[], 0⟩ 0).exchanges = 2 ∧
    ¬ (runCallers 0 (fun _ => .httpErr []) 2 ⟨[], 0⟩ 0).exchanges = 1 := by
  constructor
  · rfl
  · intro h
    cases h

/-- C6 (amended): callers contending while no valid token exists are
serialised by the cache lock; when the first serialised caller's exchange
succeeds (with a lifetime beyond the 300 s refresh margin), exactly one
credential-exchange call is performed and every caller receives the token
it produced; when every exchange attempt fails, each of the callers
performs its own exchange (k + 1 callers make k + 1 calls), each receiving
its own failure. -/
theorem single_flight_amended (k : Nat) (c : TokenCache) (now : Int)
    (oracle : Nat → ExchangeResult) (resp : AccessTokenResponse)
    (hv : cacheValid c now = false)
    (h0 : oracle 0 = .ok resp) (hcode : resp.errcode = 0)
    (htok : resp.accessToken ≠ []) (hexp : 300 < resp.expiresIn) :
    (runCallers now oracle (k + 1) c 0).exchanges = 1 ∧
    (∀ r ∈ (runCallers now oracle (k + 1) c 0).results,
      r = .ok resp.accessToken) ∧
    (∀ failOracle : Nat → ExchangeResult,
      (∀ i, exchangeFailed (failOracle i) = true) →
      (runCallers now failOracle (k + 1) c 0).exchanges = k + 1) := by
  have h1 : getAccessToken c now (oracle 0) =
      ⟨.ok resp.accessToken, ⟨resp.accessToken, now + resp.expiresIn⟩, true⟩ := by
    rw [h0]
    exact getAccessToken_invalid_ok c now resp hv hcode htok
  have hv2 : cacheValid ⟨resp.accessToken, now + resp.expiresIn⟩ now = true := by
    simp only [cacheValid, Bool.and_eq_true, decide_eq_true_eq]
    exact ⟨by simpa using htok, by omega⟩
  refine ⟨?_, ?_, ?_⟩
  · simp only [runCallers, h1]
    rw [if_pos trivial, runCallers_valid now oracle k _ 1 hv2]
  · intro r hr
    simp only [runCallers, h1] at hr
    rw [if_pos trivial, runCallers_valid now oracle k _ 1 hv2] at hr
    simp only [List.mem_cons, List.mem_replicate] at hr
    rcases hr with h | ⟨_, h⟩ <;> exact h
  · intro fo hfo
    rw [runCallers_fail now fo hfo (k + 1) c 0 hv]
    omega

/-- Witness for the amended C6: two callers, empty cache, a succeeding
exchange with `expires_in = 600` — one exchange call in total. -/
theorem single_flight_amended_witness :
    cacheValid ⟨[], 0⟩ 0 = false ∧
    (runCallers 0 (fun _ => .ok ⟨['t'], 600, 0, []⟩) 2 ⟨[], 0⟩ 0).exchanges =
      1 := by
  refine ⟨by decide, ?_⟩
  exact (single_flight_amended 1 ⟨[], 0⟩ 0 (fun _ => .ok ⟨['t'], 600, 0, []⟩)
    ⟨['t'], 600, 0, []⟩ (by decide) rfl rfl (by decide) (by decide)).1

lemma splitScheme_sep (s l : List Char) (h : ∀ c ∈ s, c ≠ ':') :
    splitScheme (s ++ ':' :: '/' :: '/' :: l) = some (s, l) := by
  induction s with
  | nil =>
    simp [splitScheme]
  | cons c cs ih =>
    have hc : c ≠ ':' := h c (List.mem_cons_self _ _)
    rw [List.cons_append, splitScheme,
      if_neg (by rintro ⟨hcol, _⟩; exact hc hcol),
      ih (fun x hx => h x (List.mem_cons_of_mem _ hx))]

lemma takeWhile_append_all {α : Type} (p : α → Bool) (l t : List α)
    (h : ∀ c ∈ l, p c = true) :
    (l ++ t).takeWhile p = l ++ t.takeWhile p := by
  induction l with
  | nil => rfl
  | cons c cs ih =>
    rw [List.cons_append, List.takeWhile_cons,
      if_pos (h c (List.mem_cons_self _ _)),
      ih (fun x hx => h x (List.mem_cons_of_mem _ hx)), List.cons_append]

lemma dropWhile_append_all {α : Type} (p : α → Bool) (l t : List α)
    (h : ∀ c ∈ l, p c = true) :
    (l ++ t).dropWhile p = t.dropWhile p := by
  induction l with
  | nil => rfl
  | cons c cs ih =>
    rw [List.cons_append, List.dropWhile_cons,
      if_pos (h c (List.mem_cons_self _ _)),
      ih (fun x hx => h x (List.mem_cons_of_mem _ hx))]

lemma dropWhile_ne_nil {α : Type} (p : α → Bool) (l : List α)
    (h : ∃ x ∈ l, p x = false) : l.dropWhile p ≠ [] := by
  induction l with
  | nil =>
    obtain ⟨x, hx, _⟩ := h
    cases hx
  | cons c cs ih =>
    rw [List.dropWhile_cons]
    by_cases hc : p c = true
    · rw [if_pos hc]
      obtain ⟨x, hx, hpx⟩ := h
      rcases List.mem_cons.mp hx with rfl | hx
      · rw [hc] at hpx
        cases hpx
      · exact ih ⟨x, hx, hpx⟩
    · rw [if_neg hc]
      exact List.cons_ne_nil _ _

lemma trimSpace_cons_ne_nil (c : Char) (l : List Char)
    (h : goIsSpace c = false) : trimSpace (c :: l) ≠ [] := by
  unfold trimSpace
  rw [List.dropWhile_cons, if_neg (by simp [h])]
  intro hemp
  exact dropWhile_ne_nil goIsSpace ((c :: l).reverse) ⟨c, by simp, h⟩
    (List.reverse_eq_nil_iff.mp hemp)

lemma contains_char_iff (l : List Char) (a : Char) :
    l.contains a = true ↔ a ∈ l := by
  induction l with
  | nil => simp
  | cons b t ih => simp [List.contains_cons, ih]

lemma contains_char_false (l : List Char) (a : Char) (h : a ∉ l) :
    l.contains a = false := by
  cases hc : l.contains a
  · rfl
  · exact absurd ((contains_char_iff l a).mp hc) h

lemma encodeQuery_single (k v : List Char) :
    encodeQuery [(k, v)] = queryEscape k ++ '=' :: queryEscape v := by
  simp [encodeQuery, encodeQueryItem, List.intercalate, List.intersperse]

lemma parseSimpleURL_eq (c0 : Char) (cs host path : List Char)
    (hal : c0.isAlpha = true) (hcs : cs.all isSchemeChar = true)
    (hnc : ∀ c ∈ c0 :: cs, c ≠ ':')
    (hhost : ∀ c ∈ host, isHostChar c = true)
    (hpath : path = [] ∨ ∃ p', path = '/' :: p')
    (hpathc : ∀ c ∈ path, isPathChar c = true) :
    parseSimpleURL ((c0 :: cs) ++ ':' :: '/' :: '/' :: (host ++ path)) =
      some ⟨c0 :: cs, host, path, []⟩ := by
  have hnoslash : ∀ c ∈ host, c ≠ '/' := by
    intro c hc heq
    subst heq
    exact absurd (hhost _ hc) (by decide)
  have htake : (host ++ path).takeWhile (· ≠ '/') = host := by
    rw [takeWhile_append_all _ _ _ (fun c hc => by simp [hnoslash c hc])]
    rcases hpath with rfl | ⟨p', rfl⟩
    · simp
    · rw [List.takeWhile_cons, if_neg (by simp)]
      simp
  have hdrop : (host ++ path).dropWhile (· ≠ '/') = path := by
    rw [dropWhile_append_all _ _ _ (fun c hc => by simp [hnoslash c hc])]
    rcases hpath with rfl | ⟨p', rfl⟩
    · rfl
    · rw [List.dropWhile_cons, if_neg (by simp)]
  have hcond : (c0.isAlpha && cs.all isSchemeChar &&
      ((host ++ path).takeWhile (· ≠ '/')).all isHostChar &&
      ((host ++ path).dropWhile (· ≠ '/')).all isPathChar) = true := by
    rw [htake, hdrop, hal, hcs]
    simp only [Bool.true_and, Bool.and_eq_true, List.all_eq_true]
    exact ⟨hhost, hpathc⟩
  unfold parseSimpleURL
  rw [splitScheme_sep (c0 :: cs) (host ++ path) hnc]
  dsimp only
  rw [if_pos hcond, htake, hdrop]

/-- C7: `resolveGotifyURL` maps the configured base URL as the
specification says: a blank base becomes `http://localhost` (resolving to
`ws://localhost/stream?token=…`); a base without `"://"` is prefixed with
`http://` and resolved as such; a `http://host[/path]` base resolves with
scheme `ws` and a `https://host[/path]` base with scheme `wss`; in both
cases the resolved path is the base path with a trailing slash removed
plus `/stream`, and the client token is attached as the escaped `token`
query parameter. The host/path conjuncts quantify over the plain-URL
domain (unreserved host characters; a path of unreserved characters and
slashes), on which `url.Parse` accepts the input verbatim and
`URL.String` performs no escaping; bases outside that domain (hosts
needing validation or ports, paths needing percent-escaping) are outside
the model. -/
theorem resolveGotifyURL_spec :
    (∀ (base token : List Char), trimSpace base = [] →
      resolveGotifyURL base token = some
        (['w', 's', ':', '/', '/', 'l', 'o', 'c', 'a', 'l', 'h', 'o', 's', 't',
          '/', 's', 't', 'r', 'e', 'a', 'm', '?', 't', 'o', 'k', 'e', 'n',
          '='] ++ queryEscape token)) ∧
    (∀ (base token : List Char), trimSpace base ≠ [] →
      splitScheme base = none →
      resolveGotifyURL base token =
        resolveGotifyURL (['h', 't', 't', 'p', ':', '/', '/'] ++ base) token) ∧
    (∀ (host path token : List Char),
      (∀ c ∈ host, isHostChar c = true) →
      (path = [] ∨ ∃ p', path = '/' :: p') →
      (∀ c ∈ path, isPathChar c = true) →
      resolveGotifyURL (['h', 't', 't', 'p', ':', '/', '/'] ++ host ++ path)
          token =
        some (['w', 's', ':', '/', '/'] ++ host ++ trimSuffixSlash path ++
          ['/', 's', 't', 'r', 'e', 'a', 'm', '?', 't', 'o', 'k', 'e', 'n',
            '='] ++ queryEscape token)) ∧
    (∀ (host path token : List Char),
      (∀ c ∈ host, isHostChar c = true) →
      (path = [] ∨ ∃ p', path = '/' :: p') →
      (∀ c ∈ path, isPathChar c = true) →
      resolveGotifyURL
          (['h', 't', 't', 'p', 's', ':', '/', '/'] ++ host ++ path) token =
        some (['w', 's', 's', ':', '/', '/'] ++ host ++ trimSuffixSlash path ++
          ['/', 's', 't', 'r', 'e', 'a', 'm', '?', 't', 'o', 'k', 'e', 'n',
            '='] ++ queryEscape token)) := by
  have hqe : queryEscape ['t', 'o', 'k', 'e', 'n'] = ['t', 'o', 'k', 'e', 'n'] := by
    decide
  refine ⟨?_, ?_, ?_, ?_⟩
  · intro base token htrim
    have hsp : splitScheme ['h', 't', 't', 'p', ':', '/', '/', 'l', 'o', 'c',
        'a', 'l', 'h', 'o', 's', 't'] =
      some (['h', 't', 't', 'p'], ['l', 'o', 'c', 'a', 'l', 'h', 'o', 's',
        't']) := by decide
    have hparse : parseSimpleURL ['h', 't', 't', 'p', ':', '/', '/', 'l', 'o',
        'c', 'a', 'l', 'h', 'o', 's', 't'] =
      some ⟨['h', 't', 't', 'p'], ['l', 'o', 'c', 'a', 'l', 'h', 'o', 's', 't'],
        [], []⟩ := by decide
    simp only [resolveGotifyURL, htrim, if_pos trivial, hsp, Option.isSome_some,
      if_true, hparse]
    simp [urlString, querySet, encodeQuery_single, hqe, trimSuffixSlash]
  · intro base token htrim hnone
    have hne : trimSpace (['h', 't', 't', 'p', ':', '/', '/'] ++ base) ≠ [] := by
      have hsh : (['h', 't', 't', 'p', ':', '/', '/'] ++ base) =
          'h' :: (['t', 't', 'p', ':', '/', '/'] ++ base) := rfl
      rw [hsh]
      exact trimSpace_cons_ne_nil _ _ (by decide)
    have hsp : splitScheme (['h', 't', 't', 'p', ':', '/', '/'] ++ base) =
        some (['h', 't', 't', 'p'], base) := by
      have hsh : (['h', 't', 't', 'p', ':', '/', '/'] ++ base) =
          ['h', 't', 't', 'p'] ++ ':' :: '/' :: '/' :: base := rfl
      rw [hsh]
      exact splitScheme_sep _ _ (by decide)
    simp only [resolveGotifyURL, if_neg htrim, if_neg hne, hnone,
      Option.isSome_none, Bool.false_eq_true, if_false, hsp,
      Option.isSome_some, if_true]
  · intro host path token hhost hpath hpathc
    have hne : trimSpace (['h', 't', 't', 'p', ':', '/', '/'] ++ host ++ path)
        ≠ [] := by
      have hsh : ['h', 't', 't', 'p', ':', '/', '/'] ++ host ++ path =
          'h' :: (['t', 't', 'p', ':', '/', '/'] ++ host ++ path) := by simp
      rw [hsh]
      exact trimSpace_cons_ne_nil _ _ (by decide)
    have heq : ['h', 't', 't', 'p', ':', '/', '/'] ++ host ++ path =
        ('h' :: ['t', 't', 'p']) ++ ':' :: '/' :: '/' :: (host ++ path) := by
      simp
    have hparse := parseSimpleURL_eq 'h' ['t', 't', 'p'] host path (by decide)
      (by decide) (by decide) hhost hpath hpathc
    have hsp : splitScheme (['h', 't', 't', 'p', ':', '/', '/'] ++ host ++ path)
        = some (['h', 't', 't', 'p'], host ++ path) := by
      rw [heq]
      exact splitScheme_sep _ _ (by decide)
    simp only [resolveGotifyURL]
    rw [if_neg hne, hsp]
    simp only [Option.isSome_some, if_true]
    rw [heq, hparse]
    simp only []
    rw [if_neg (by decide)]
    simp [urlString, querySet, encodeQuery_single, hqe]
  · intro host path token hhost hpath hpathc
    have hne : trimSpace
        (['h', 't', 't', 'p', 's', ':', '/', '/'] ++ host ++ path) ≠ [] := by
      have hsh : ['h', 't', 't', 'p', 's', ':', '/', '/'] ++ host ++ path =
          'h' :: (['t', 't', 'p', 's', ':', '/', '/'] ++ host ++ path) := by
        simp
      rw [hsh]
      exact trimSpace_cons_ne_nil _ _ (by decide)
    have heq : ['h', 't', 't', 'p', 's', ':', '/', '/'] ++ host ++ path =
        ('h' :: ['t', 't', 'p', 's']) ++ ':' :: '/' :: '/' :: (host ++ path) := by
      simp
    have hparse := parseSimpleURL_eq 'h' ['t', 't', 'p', 's'] host path
      (by decide) (by decide) (by decide) hhost hpath hpathc
    have hsp : splitScheme
        (['h', 't', 't', 'p', 's', ':', '/', '/'] ++ host ++ path)
        = some (['h', 't', 't', 'p', 's'], host ++ path) := by
      rw [heq]
      exact splitScheme_sep _ _ (by decide)
    simp only [resolveGotifyURL]
    rw [if_neg hne, hsp]
    simp only [Option.isSome_some, if_true]
    rw [heq, hparse]
    simp [urlString, querySet, encodeQuery_single, hqe]

/-- Witness for C7: an empty base resolves to
`ws://localhost/stream?token=k`, and `http://host/a/` with token `"s "`
resolves to `ws://host/a/stream?token=s+` (trailing slash stripped, token
escaped). -/
theorem resolveGotifyURL_spec_witness :
    resolveGotifyURL [] ['k'] =
      some ['w', 's', ':', '/', '/', 'l', 'o', 'c', 'a', 'l', 'h', 'o', 's',
        't', '/', 's', 't', 'r', 'e', 'a', 'm', '?', 't', 'o', 'k', 'e', 'n',
        '=', 'k'] ∧
    resolveGotifyURL
      ['h', 't', 't', 'p', ':', '/', '/', 'h', 'o', 's', 't', '/', 'a', '/']
      ['s', ' '] =
      some ['w', 's', ':', '/', '/', 'h', 'o', 's', 't', '/', 'a', '/', 's',
        't', 'r', 'e', 'a', 'm', '?', 't', 'o', 'k', 'e', 'n', '=', 's',
        '+'] := by
  constructor
  · exact (resolveGotifyURL_spec.1 [] ['k'] (by decide)).trans (by decide)
  · have h := resolveGotifyURL_spec.2.2.1 ['h', 'o', 's', 't'] ['/', 'a', '/']
      ['s', ' '] (by decide) (Or.inr ⟨['a', '/'], rfl⟩) (by decide)
    exact h.trans (by decide)
